import Mathlib

/-!
Verification of the document indexing and retrieval engine
(`src/rag_engine.rs`) against its natural-language specification.

The Rust source is shallowly embedded: text is handled as `List Char`
(mirroring the `Vec<char>` the chunker works on), the SQLite tables are
modelled as association lists, and the `while` loops become fueled
structural recursions so that non-termination of the source loop is
observable as exhaustion of every fuel bound.
-/

namespace RagEngine

/-- ASCII-effective lowercasing, modelling Rust `str::to_lowercase` on the
inputs this engine handles (stop words and query tokens are ASCII). -/
def lowerStr (s : String) : String := String.mk (s.data.map Char.toLower)

/-- Rust `str::trim`: drop Unicode whitespace from both ends. -/
def trimChars (cs : List Char) : List Char :=
  ((cs.dropWhile Char.isWhitespace).reverse.dropWhile Char.isWhitespace).reverse

/-- The sentence-terminating characters tested at
`rag_engine.rs:233` (`'.' || '!' || '?'`). -/
def isSentenceEnd (c : Char) : Bool := c = '.' || c = '!' || c = '?'

/-- The backward scan `for i in (start + chunk_size - 100..end).rev()` of
`rag_engine.rs:232`: the largest index `i` in `[lo, hi)` whose character is a
sentence terminator. (The source's extra guard `i < chars.len()` always holds
because `hi ≤ chars.len()`; `getD` with a non-terminator default mirrors it.) -/
def findSentenceBreak (chars : List Char) (lo hi : Nat) : Option Nat :=
  (List.range' lo (hi - lo) 1).reverse.find? (fun i => isSentenceEnd (chars.getD i ' '))

/-- `DocumentChunk` of `rag_engine.rs` (the embedding slot is never populated
by the code, `rag_engine.rs:249`). -/
structure DocumentChunk where
  id : String
  document_id : String
  content : String
  start_pos : Nat
  end_pos : Nat
  deriving Repr, DecidableEq

/-- The body of the `while start < chars.len()` loop of
`RAGEngine::create_chunks` (`rag_engine.rs:226-262`), run under a fuel bound.
Returns the chunks pushed so far and whether the loop has finished: a `false`
flag means the fuel ran out with the loop still running.
(`start + chunk_size - 100` uses truncated subtraction; the engine's fixed
`chunk_size = 512` keeps it exact, as in the source's `usize` arithmetic.) -/
def create_chunks_loop (chunkSize overlapSize : Nat) (doc_id : String)
    (chars : List Char) : Nat → Nat → List DocumentChunk → List DocumentChunk × Bool
  | 0, _, acc => (acc, false)
  | fuel + 1, start, acc =>
    if start < chars.length then
      let e := min (start + chunkSize) chars.length
      let actual_end :=
        if e < chars.length then
          match findSentenceBreak chars (start + chunkSize - 100) e with
          | some i => i + 1
          | none => e
        else e
      let chunk : DocumentChunk :=
        { id := doc_id ++ "_" ++ toString acc.length
          document_id := doc_id
          content := String.mk (trimChars ((chars.drop start).take (actual_end - start)))
          start_pos := start
          end_pos := actual_end }
      let acc2 := acc ++ [chunk]
      let start2 := if overlapSize ≤ actual_end then actual_end - overlapSize else actual_end
      if chars.length ≤ start2 then (acc2, true)
      else create_chunks_loop chunkSize overlapSize doc_id chars fuel start2 acc2
    else (acc, true)

/-- Engine configuration fixed at construction (`rag_engine.rs:85`). -/
def chunk_size : Nat := 512

/-- Engine configuration fixed at construction (`rag_engine.rs:86`). -/
def overlap_size : Nat := 64

/-- `RAGEngine::create_chunks` (`rag_engine.rs:221-265`) under a fuel bound:
`none` means the source loop has not terminated within `fuel` iterations. -/
def create_chunks (fuel : Nat) (content : String) (doc_id : String) :
    Option (List DocumentChunk) :=
  let r := create_chunks_loop chunk_size overlap_size doc_id content.data fuel 0 []
  if r.2 then some r.1 else none

/-- Helper for `countMatches`: scans the haystack left to right; a `skip`
counter larger than zero means we are inside a just-counted occurrence and
may not start a new (overlapping) one. -/
def countOccsAux (p : List Char) : List Char → Nat → Nat
  | [], _ => 0
  | c :: t, 0 =>
    if List.isPrefixOf p (c :: t) then 1 + countOccsAux p t (p.length - 1)
    else countOccsAux p t 0
  | _ :: t, k + 1 => countOccsAux p t k

/-- Rust `str::matches(pat).count()`: the number of non-overlapping,
left-to-right occurrences of `p` in `hay` (`rag_engine.rs:197`). An empty
pattern matches at every boundary, `hay.length + 1` times, as in Rust. -/
def countMatches (hay p : List Char) : Nat :=
  if p.isEmpty then hay.length + 1 else countOccsAux p hay 0

/-- Helper for `splitWhitespace`; `acc` holds the current word reversed. -/
def wordsAux : List Char → List Char → List (List Char)
  | [], acc => if acc.isEmpty then [] else [acc.reverse]
  | c :: t, acc =>
    if c.isWhitespace then
      if acc.isEmpty then wordsAux t [] else acc.reverse :: wordsAux t []
    else wordsAux t (c :: acc)

/-- Rust `str::split_whitespace`: whitespace-separated words, no empties. -/
def splitWhitespace (s : String) : List String := (wordsAux s.data []).map String.mk

/-- The stop-word set initialised at `rag_engine.rs:77-81`. -/
def stop_words : List String :=
  ["a", "an", "and", "are", "as", "at", "be", "by", "for", "from",
   "has", "he", "in", "is", "it", "its", "of", "on", "that", "the",
   "to", "was", "will", "with"]

/-- `RAGEngine::process_query` (`rag_engine.rs:267-275`): drop stop words
(case-insensitively), quote each surviving token, join with `" OR "`. -/
def process_query (q : String) : String :=
  let words := ((splitWhitespace q).filter
      (fun w => !(stop_words.contains (lowerStr w)))).map (fun w => "\"" ++ w ++ "\"")
  String.intercalate " OR " words

/-- A row of the `documents` table (`rag_engine.rs:49-54`); the metadata JSON
serialisation is opaque to the engine and modelled as the map itself. -/
structure DocRow where
  id : String
  title : String
  content : String
  metadata : List (String × String)
  deriving Repr, DecidableEq

/-- A row of the `chunks` table (`rag_engine.rs:58-66`). -/
structure ChunkRow where
  id : String
  document_id : String
  content : String
  start_pos : Nat
  end_pos : Nat
  deriving Repr, DecidableEq

/-- A row of the `chunks_fts` FTS5 virtual table (`rag_engine.rs:70-73`). -/
structure FtsRow where
  chunk_id : String
  content : String
  deriving Repr, DecidableEq

/-- The in-memory SQLite database owned by the engine, rows in storage
(rowid) order. -/
structure Store where
  documents : List DocRow
  chunks : List ChunkRow
  chunks_fts : List FtsRow
  deriving Repr, DecidableEq

/-- SQLite `INSERT OR REPLACE` on a table with a TEXT primary key `id`:
any conflicting row is deleted and the new row appended. -/
def upsertDoc (rows : List DocRow) (r : DocRow) : List DocRow :=
  rows.filter (fun x => x.id != r.id) ++ [r]

/-- SQLite `INSERT OR REPLACE` into `chunks` (`rag_engine.rs:110`). -/
def upsertChunk (rows : List ChunkRow) (r : ChunkRow) : List ChunkRow :=
  rows.filter (fun x => x.id != r.id) ++ [r]

/-- The caller-facing `Document` struct (`rag_engine.rs:8-16`). -/
structure Document where
  id : String
  title : String
  content : String
  metadata : List (String × String)
  embedding : Option (List Int)
  chunks : List DocumentChunk
  deriving Repr, DecidableEq

/-- `RAGEngine::index_document` (`rag_engine.rs:91-131`): upsert the document
row, chunk `document.content`, upsert each chunk row and append its text to
the FTS table (a plain `INSERT`, `rag_engine.rs:122`). The source inserts the
document row before chunking; as chunking is pure, the model may order the
two steps either way. `none` models the call never returning because
`create_chunks` hit its non-terminating case. -/
def index_document (fuel : Nat) (s : Store) (d : Document) : Option Store :=
  match create_chunks fuel d.content d.id with
  | none => none
  | some cs =>
    let s1 : Store := { s with documents := upsertDoc s.documents ⟨d.id, d.title, d.content, d.metadata⟩ }
    some (cs.foldl (fun st c =>
      { st with
        chunks := upsertChunk st.chunks ⟨c.id, c.document_id, c.content, c.start_pos, c.end_pos⟩
        chunks_fts := st.chunks_fts ++ [⟨c.id, c.content⟩] }) s1)

/-- Strip one leading and one trailing double quote, undoing the quoting of
`process_query` for the phrase-match model. -/
def trimQuote (cs : List Char) : List Char :=
  let cs1 := if cs.head? = some '"' then cs.tail else cs
  if cs1.getLast? = some '"' then cs1.dropLast else cs1

/-- Structural splitter on a non-empty separator (the counterpart of
`str::split` for the model); `skip` counts characters of a just-matched
separator still to be consumed. -/
def splitSepAux (sep : List Char) : List Char → Nat → List Char → List (List Char)
  | [], _, acc => [acc.reverse]
  | c :: t, 0, acc =>
    if List.isPrefixOf sep (c :: t) then
      acc.reverse :: splitSepAux sep t (sep.length - 1) []
    else splitSepAux sep t 0 (c :: acc)
  | _ :: t, k + 1, acc => splitSepAux sep t k acc

/-- Split a character list on a separator occurrence-wise (as
`String.splitOn` does for a non-empty separator). -/
def splitOnSep (sep cs : List Char) : List (List Char) :=
  if sep.isEmpty then [cs] else splitSepAux sep cs 0 []

/-- The quoted phrases of a `process_query`-produced match expression. An
empty expression has no phrases. -/
def exprPhrases (expr : String) : List String :=
  if expr = "" then []
  else (splitOnSep " OR ".data expr.data).map (fun w => String.mk (trimQuote w))

/-- Modelled from the spec: the Full-Text Index (the SQLite FTS5 engine
behind `chunks_fts MATCH ?`) is an external component. Per §4.4 it returns
a ranked sequence truncated later by `LIMIT`, treats an empty expression as
matching nothing, and its ranking is opaque — modelled as table order. A
quoted phrase matches a chunk when it occurs case-insensitively in the
chunk's indexed content. -/
def fts_search (tab : List FtsRow) (expr : String) : List FtsRow :=
  tab.filter (fun r => (exprPhrases expr).any
    (fun p => countMatches (lowerStr r.content).data (lowerStr p).data != 0))

/-- `SELECT ... WHERE c.id = cid` (primary-key lookup for the join). -/
def findChunk (l : List ChunkRow) (cid : String) : Option ChunkRow :=
  l.find? (fun c => c.id == cid)

/-- `SELECT ... WHERE d.id = did` (primary-key lookup for the join). -/
def findDoc (l : List DocRow) (did : String) : Option DocRow :=
  l.find? (fun d => d.id == did)

/-- A row of the indexed-path SELECT (`rag_engine.rs:138`): `c.content`,
`c.document_id`, `d.title`, `d.metadata`. The source reads only the first
three columns (`rag_engine.rs:152-154`); the metadata column is selected but
never read. -/
structure QueryRow where
  content : String
  document_id : String
  title : String
  metadata : List (String × String)
  deriving Repr, DecidableEq

/-- The row sequence produced by the indexed-path statement
(`rag_engine.rs:137-148`): FTS matches joined to their chunk and parent
document rows, truncated to `limit`. -/
def indexed_rows (s : Store) (expr : String) (limit : Nat) : List QueryRow :=
  ((fts_search s.chunks_fts expr).filterMap (fun cf =>
    (findChunk s.chunks cf.chunk_id).bind (fun c =>
      (findDoc s.documents c.document_id).map (fun d =>
        ⟨c.content, c.document_id, d.title, d.metadata⟩)))).take limit

/-- The result formatting shared by both paths
(`rag_engine.rs:156-161` and `rag_engine.rs:202-207`). -/
def formatResult (title doc_id content : String) : String :=
  "[Document: " ++ title ++ " (" ++ doc_id ++ ")] " ++ content

/-- The stop-word-free token list of `fallback_search`
(`rag_engine.rs:173-175`). -/
def query_words (q : String) : List String :=
  (splitWhitespace q).filter (fun w => !(stop_words.contains (lowerStr w)))

/-- The candidate scan of `fallback_search` (`rag_engine.rs:177-184`):
chunks joined to their parent documents in store order, `LIMIT n` rows of
`(c.content, c.document_id, d.title)`. -/
def scan_rows (s : Store) (n : Nat) : List (String × String × String) :=
  (s.chunks.filterMap (fun c =>
    (findDoc s.documents c.document_id).map (fun d => (c.content, c.document_id, d.title)))).take n

/-- The relevance score of `rag_engine.rs:193-199`: sum over query words of
the case-insensitive occurrence count of the word in the chunk content. The
source sums `f64` casts of the counts; `fallback_score_f64` below proves the
float sum is exactly this natural number. -/
def fallback_score (ws : List String) (content : String) : Nat :=
  (ws.map (fun w => countMatches (lowerStr content).data (lowerStr w).data)).sum

/-- The scored, zero-discarded candidate list of `rag_engine.rs:186-209`,
each candidate carrying its score and its already-formatted result string. -/
def fallback_candidates (s : Store) (q : String) (limit : Nat) : List (Nat × String) :=
  (scan_rows s (limit * 5)).filterMap (fun r =>
    if 0 < fallback_score (query_words q) r.1 then
      some (fallback_score (query_words q) r.1, formatResult r.2.2 r.2.1 r.1)
    else none)

/-- The ordering passed to `candidates.sort_by` at `rag_engine.rs:212`:
descending by score. Rust's `sort_by` is stable; the stability of the
insertion-sort model is proved, not assumed, in the C8 theorem. -/
def scoreDesc : (Nat × String) → (Nat × String) → Prop := fun a b => b.1 ≤ a.1

instance : DecidableRel scoreDesc := fun a b => Nat.decLe b.1 a.1

instance : IsTotal (Nat × String) scoreDesc := ⟨fun a b => Nat.le_total b.1 a.1⟩

instance : IsTrans (Nat × String) scoreDesc := ⟨fun _ _ _ hab hbc => le_trans hbc hab⟩

/-- `RAGEngine::fallback_search` (`rag_engine.rs:172-219`): score the scanned
candidates, drop zero scores, sort by score descending (stable), take
`limit`, keep the formatted strings. -/
def fallback_search (s : Store) (q : String) (limit : Nat) : List String :=
  ((List.insertionSort scoreDesc (fallback_candidates s q limit)).take limit).map Prod.snd

/-- The `results` vector built by the indexed-path row loop of
`rag_engine.rs:150-162`. -/
def indexed_results (s : Store) (q : String) (limit : Nat) : List String :=
  (indexed_rows s (process_query q) limit).map
    (fun r => formatResult r.title r.document_id r.content)

/-- `RAGEngine::query` (`rag_engine.rs:133-170`) on the happy path (DB step
errors are modelled separately by `query_db`): run the indexed search; if it
yields nothing, fall back. Both outcomes are successes. -/
def query (s : Store) (q : String) (limit : Nat) : Except String (List String) :=
  if (indexed_results s q limit).isEmpty then .ok (fallback_search s q limit)
  else .ok (indexed_results s q limit)

/-- One outcome of driving a prepared statement from the row loops of
`query`/`fallback_search`: `rowOk` is `Ok(State::Row)` followed by
successful column reads, `rowReadErr` is `Ok(State::Row)` with a failing
`stmt.read(..)?`, `done` is `Ok(State::Done)`, and `stepErr` is
`stmt.next()` returning `Err`. -/
inductive DbStep where
  | rowOk (content document_id title : String)
  | rowReadErr (e : String)
  | done
  | stepErr (e : String)
  deriving Repr, DecidableEq

/-- The `while let Ok(State::Row) = stmt.next()` loop shared by
`rag_engine.rs:151-162` and `rag_engine.rs:187-209`: collects rows until the
first non-row outcome; a failing column read propagates via `?`, but an
`Err` from `stmt.next()` merely ends the loop — it is not surfaced. -/
def run_row_loop : List DbStep → Except String (List (String × String × String))
  | [] => .ok []
  | .rowOk c d t :: rest => (run_row_loop rest).map (fun rs => (c, d, t) :: rs)
  | .rowReadErr e :: _ => .error e
  | .done :: _ => .ok []
  | .stepErr _ :: _ => .ok []

/-- The control flow of `RAGEngine::query` with the database's step
behaviour supplied as oracles: `ftsSteps` drives the indexed-path statement,
`fbSteps` the fallback scan statement. Row contents are `(content,
document_id, title)` as read at `rag_engine.rs:152-154` and `188-190`. -/
def query_db (q : String) (limit : Nat) (ftsSteps fbSteps : List DbStep) :
    Except String (List String) :=
  match run_row_loop ftsSteps with
  | .error e => .error e
  | .ok rows =>
    let results := rows.map (fun r => formatResult r.2.2 r.2.1 r.1)
    if results.isEmpty then
      match run_row_loop fbSteps with
      | .error e => .error e
      | .ok cands =>
        let cs := cands.filterMap (fun r =>
          if 0 < fallback_score (query_words q) r.1 then
            some (fallback_score (query_words q) r.1, formatResult r.2.2 r.2.1 r.1)
          else none)
        .ok (((List.insertionSort scoreDesc cs).take limit).map Prod.snd)
    else .ok results

/-- The fragment of IEEE binary64 exercised by the fallback scoring: values
are either NaN or a number held exactly. The scores are casts of occurrence
counts and sums thereof, for which binary64 addition can lose precision but
can never produce NaN, which is all the C10 claim needs; the model keeps the
numbers exact. -/
inductive F64 where
  | nan
  | num (x : ℚ)
  deriving Repr, DecidableEq

/-- `usize as f64` on an occurrence count (`rag_engine.rs:197`). -/
def F64.ofNat (n : Nat) : F64 := .num n

/-- binary64 addition restricted to this fragment: NaN is absorbing. -/
def F64.add : F64 → F64 → F64
  | .num a, .num b => .num (a + b)
  | _, _ => .nan

/-- Rust `f64::partial_cmp` (`rag_engine.rs:212`): `none` exactly when an
operand is NaN — the case in which the source's `.unwrap()` panics. -/
def F64.pcmp : F64 → F64 → Option Ordering
  | .num a, .num b => some (compare a b)
  | _, _ => none

/-- The fallback score as the source computes it, in floating point:
`.map(|word| ... as f64).sum::<f64>()` (`rag_engine.rs:194-199`). -/
def fallback_score_f64 (ws : List String) (content : String) : F64 :=
  (ws.map (fun w =>
    F64.ofNat (countMatches (lowerStr content).data (lowerStr w).data))).foldl
    F64.add (F64.ofNat 0)

end RagEngine

namespace RagEngine

/-- On a 64-character content, every iteration of the chunking loop starting
at position 0 re-enters at position 0: `actual_end = 64`, and the overlap
rollback `actual_end - overlap_size` lands back on `0 < 64`. -/
theorem create_chunks_loop_stuck_64 (fuel : Nat) :
    ∀ acc, (create_chunks_loop chunk_size overlap_size "d"
      (List.replicate 64 'a') fuel 0 acc).2 = false := by
  induction fuel with
  | zero => intro acc; rfl
  | succ n ih =>
    intro acc
    rw [create_chunks_loop]
    simp only [chunk_size, overlap_size, List.length_replicate]
    norm_num
    exact ih _

/-- C1: the claim is false of the code and true of the spec's stated intent
("Terminate when `start` reaches or exceeds content length"): with the
engine's configuration (`chunk_size = 512`, `overlap_size = 64`, a valid
`overlap_size < chunk_size`) and a content of 64 characters, the final
iteration sets `actual_end` to the content length and then rolls `start` back
to `length - overlap_size`, so `start` never reaches the content length and
`create_chunks` never terminates: for every fuel bound it is still running. -/
theorem C1_create_chunks_diverges :
    ∀ fuel : Nat,
      create_chunks fuel (String.mk (List.replicate 64 'a')) "d" = none := by
  intro fuel
  unfold create_chunks
  rw [if_neg]
  simp only [String.data]
  rw [create_chunks_loop_stuck_64 fuel []]
  simp

/-- C2: the claim (strictly increasing `start_pos`) is false of the chunk
sequence the code produces: on a 100-character content the loop emits chunks
with `start_pos` 0, 36, 36, ... — after the first rollback `start` is pinned
at `100 - 64 = 36` and every later chunk repeats it (the loop never exits). -/
theorem C2_start_pos_not_strictly_increasing :
    ((create_chunks_loop chunk_size overlap_size "d"
        (List.replicate 100 'a') 3 0 []).1.map DocumentChunk.start_pos) = [0, 36, 36] := by
  decide

/-- C3: the claim is false of the code. Indexing `"d"` with content `"hi."`
stores the chunk `d_0`; re-indexing `"d"` with new (empty) content replaces
only the document row: `index_document` issues `INSERT OR REPLACE` per chunk
of the new content and never deletes, so the chunk `d_0` derived from the old
content remains in the chunk store and is still returned by `query` — the
stated full-replacement invariant (spec §3, §8) is the clear intent and the
missing deletion a slip. -/
theorem C3_stale_chunk_survives_reindex :
    (index_document 9 ⟨[], [], []⟩ ⟨"d", "T", "hi.", [], none, []⟩).bind
        (fun s1 => index_document 9 s1 ⟨"d", "T", "", [], none, []⟩) =
      some ⟨[⟨"d", "T", "", []⟩], [⟨"d_0", "d", "hi.", 0, 3⟩], [⟨"d_0", "hi."⟩]⟩ ∧
    query ⟨[⟨"d", "T", "", []⟩], [⟨"d_0", "d", "hi.", 0, 3⟩], [⟨"d_0", "hi."⟩]⟩ "hi" 5 =
      .ok ["[Document: T (d)] hi."] :=
  ⟨rfl, rfl⟩

/-- C4 counterexample: a storage I/O failure raised by `stmt.next()` during
the indexed row loop — and another during the fallback row loop — is
swallowed by `while let Ok(State::Row)` and turned into an empty success,
not surfaced as an error. -/
theorem C4_counterexample_step_error_swallowed :
    query_db "care" 5 [DbStep.stepErr "disk I/O error"] [DbStep.stepErr "disk I/O error"] =
      .ok [] :=
  rfl

/-- Splitting the row loop at the first non-row outcome: a prefix of
successfully read rows is collected, and the tail decides the verdict. -/
theorem run_row_loop_map_rowOk_append (rows : List (String × String × String))
    (tail : List DbStep) :
    run_row_loop (rows.map (fun r => DbStep.rowOk r.1 r.2.1 r.2.2) ++ tail) =
      (run_row_loop tail).map (fun rs => rows ++ rs) := by
  induction rows with
  | nil => cases h : run_row_loop tail <;> simp [h, Except.map]
  | cons r rows ih =>
    simp only [List.map_cons, List.cons_append, run_row_loop, List.append_eq]
    rw [ih]
    cases h : run_row_loop tail <;> simp [Except.map]

/-- C4 amended: the error surfacing of `query` is selective. A failure of a
column read inside a row loop propagates via `?` and aborts the pipeline
(conjuncts 1 and 3, for the indexed and fallback statements); but an `Err`
returned by `stmt.next()` itself is indistinguishable from a normal end of
rows — the pipeline behaves exactly as if the statement had reported `Done`,
and the failure is silently absorbed into a success (conjunct 2). -/
theorem C4_amended_error_surfacing (q : String) (limit : Nat)
    (rows : List (String × String × String)) (e : String) (rest fb : List DbStep) :
    query_db q limit
        (rows.map (fun r => DbStep.rowOk r.1 r.2.1 r.2.2) ++ DbStep.rowReadErr e :: rest) fb =
      .error e ∧
    query_db q limit
        (rows.map (fun r => DbStep.rowOk r.1 r.2.1 r.2.2) ++ DbStep.stepErr e :: rest) fb =
      query_db q limit
        (rows.map (fun r => DbStep.rowOk r.1 r.2.1 r.2.2) ++ [DbStep.done]) fb ∧
    query_db q limit [DbStep.done]
        (rows.map (fun r => DbStep.rowOk r.1 r.2.1 r.2.2) ++ DbStep.rowReadErr e :: rest) =
      .error e := by
  refine ⟨?_, ?_, ?_⟩
  · unfold query_db
    rw [run_row_loop_map_rowOk_append]
    rfl
  · unfold query_db
    rw [run_row_loop_map_rowOk_append, run_row_loop_map_rowOk_append]
    rfl
  · unfold query_db
    rw [run_row_loop_map_rowOk_append]
    rfl

/-- C9: the stored state written by `index_document` is recomputed from the
document's `id`, `title`, `content` and `metadata` alone; the caller-supplied
`chunks` and `embedding` fields are never read (the chunks are rebuilt from
`content` at `rag_engine.rs:105`), so two documents differing only there
leave identical stores. -/
theorem C9_caller_chunks_ignored (fuel : Nat) (s : Store) (d₁ d₂ : Document)
    (hid : d₁.id = d₂.id) (ht : d₁.title = d₂.title)
    (hc : d₁.content = d₂.content) (hm : d₁.metadata = d₂.metadata) :
    index_document fuel s d₁ = index_document fuel s d₂ := by
  cases d₁
  cases d₂
  simp only at hid ht hc hm
  subst hid ht hc hm
  rfl

/-- Witness for C9 at a concrete pair of documents differing only in their
caller-supplied `chunks` and `embedding` fields. -/
theorem C9_caller_chunks_ignored_witness :
    index_document 5 ⟨[], [], []⟩ ⟨"d", "T", "x", [], none, []⟩ =
      index_document 5 ⟨[], [], []⟩
        ⟨"d", "T", "x", [], some [7], [⟨"evil", "e", "bad", 0, 0⟩]⟩ :=
  C9_caller_chunks_ignored 5 ⟨[], [], []⟩ _ _ rfl rfl rfl rfl

/-- Folding exact binary64 additions of naturals from a numeric accumulator
stays numeric and computes the natural-number sum. -/
theorem foldl_f64_add_num (l : List Nat) :
    ∀ q : ℚ, (l.map F64.ofNat).foldl F64.add (F64.num q) = F64.num (q + l.sum) := by
  induction l with
  | nil => intro q; simp
  | cons n t ih =>
    intro q
    simp only [List.map_cons, List.foldl_cons, F64.ofNat, F64.add, ih, List.sum_cons]
    congr 1
    push_cast
    ring

/-- C10: the score of every fallback candidate is the binary64 image of a
natural number (a sum of occurrence counts), hence finite, non-negative,
and never NaN; `partial_cmp` on two such scores always returns an ordering,
so the `.unwrap()` in the sort comparator at `rag_engine.rs:212` cannot
panic. -/
theorem C10_fallback_scores_never_nan (ws : List String) (c₁ c₂ : String) :
    fallback_score_f64 ws c₁ = F64.num ((fallback_score ws c₁ : ℚ)) ∧
    (0 : ℚ) ≤ ((fallback_score ws c₁ : ℚ)) ∧
    (F64.pcmp (fallback_score_f64 ws c₁) (fallback_score_f64 ws c₂)).isSome = true := by
  have h : ∀ c, fallback_score_f64 ws c = F64.num ((fallback_score ws c : ℚ)) := by
    intro c
    unfold fallback_score_f64 fallback_score
    rw [show (ws.map fun w => F64.ofNat (countMatches (lowerStr c).data (lowerStr w).data)) =
          (ws.map fun w => countMatches (lowerStr c).data (lowerStr w).data).map F64.ofNat by
        simp [List.map_map, Function.comp]]
    rw [show F64.ofNat 0 = F64.num 0 by simp [F64.ofNat]]
    rw [foldl_f64_add_num]
    simp
  refine ⟨h c₁, by positivity, ?_⟩
  rw [h c₁, h c₂]
  rfl

/-- C7: on either retrieval path the number of results never exceeds the
requested limit — the indexed statement carries `LIMIT ?` and the fallback
applies `.take(limit)`. -/
theorem C7_limit_respected (s : Store) (q : String) (limit : Nat) :
    ∃ rs, query s q limit = .ok rs ∧ rs.length ≤ limit := by
  unfold query
  split
  · refine ⟨_, rfl, ?_⟩
    unfold fallback_search
    rw [List.length_map]
    exact List.length_take_le _ _
  · refine ⟨_, rfl, ?_⟩
    unfold indexed_results indexed_rows
    rw [List.length_map, List.length_take]
    omega

/-- C6: a query consisting entirely of stop words yields an empty successful
result: the normalized expression is empty, the (spec-modelled) full-text
index treats an empty expression as matching nothing, and in the fallback
the token list is empty so every candidate scores 0 and is discarded. -/
theorem C6_all_stop_words_empty_success (s : Store) (q : String) (limit : Nat)
    (h : ∀ w ∈ splitWhitespace q, stop_words.contains (lowerStr w) = true) :
    query s q limit = .ok [] := by
  have hfil : (splitWhitespace q).filter
      (fun w => !(stop_words.contains (lowerStr w))) = [] := by
    apply List.filter_eq_nil_iff.mpr
    intro w hw
    rw [h w hw]
    simp
  have hqw : query_words q = [] := hfil
  have hpq : process_query q = "" := by
    unfold process_query
    rw [hfil]
    rfl
  have hres : indexed_results s q limit = [] := by
    unfold indexed_results
    rw [hpq]
    unfold indexed_rows fts_search exprPhrases
    simp
  have hfb : fallback_search s q limit = [] := by
    unfold fallback_search fallback_candidates
    rw [hqw]
    have hcand : (scan_rows s (limit * 5)).filterMap (fun r =>
        if 0 < fallback_score ([] : List String) r.1 then
          some (fallback_score ([] : List String) r.1, formatResult r.2.2 r.2.1 r.1)
        else none) = [] := by
      simp [fallback_score]
    rw [hcand]
    simp [List.insertionSort]
  unfold query
  rw [hres, hfb]
  rfl

/-- Witness for C6: the all-stop-word query `"the a of"` against a store
holding an indexed document returns the empty success. -/
theorem C6_all_stop_words_witness :
    (∀ w ∈ splitWhitespace "the a of", stop_words.contains (lowerStr w) = true) ∧
    query ⟨[⟨"d", "T", "hello there.", []⟩], [⟨"d_0", "d", "hello there.", 0, 12⟩],
        [⟨"d_0", "hello there."⟩]⟩ "the a of" 3 = .ok [] :=
  ⟨by decide, C6_all_stop_words_empty_success _ "the a of" 3 (by decide)⟩

/-- Inserting an element whose score differs from `v` leaves the
score-`v` sublist untouched. -/
theorem filter_orderedInsert_of_ne (v : Nat) (a : Nat × String) (ha : ¬ a.1 = v) :
    ∀ l : List (Nat × String),
      (List.orderedInsert scoreDesc a l).filter (fun x => x.1 == v) =
        l.filter (fun x => x.1 == v) := by
  intro l
  induction l with
  | nil => simp [List.orderedInsert, List.filter_cons, ha]
  | cons b t ih =>
    rw [List.orderedInsert]
    split
    · simp [List.filter_cons, ha]
    · simp [List.filter_cons, ih]

/-- Inserting an element of score `v` into a descending-sorted list places it
in front of every present element of score `v` (the inserted element passes
only elements of strictly greater score). -/
theorem filter_orderedInsert_of_eq (v : Nat) (a : Nat × String) (ha : a.1 = v) :
    ∀ l : List (Nat × String), l.Sorted scoreDesc →
      (List.orderedInsert scoreDesc a l).filter (fun x => x.1 == v) =
        a :: l.filter (fun x => x.1 == v) := by
  intro l
  induction l with
  | nil => intro _; simp [List.orderedInsert, List.filter_cons, ha]
  | cons b t ih =>
    intro hsort
    rw [List.orderedInsert]
    split
    · simp [List.filter_cons, ha]
    next hab =>
      have hbv : ¬ b.1 = v := by
        unfold scoreDesc at hab
        omega
      simp [List.filter_cons, hbv, ih hsort.of_cons]

/-- Stability of the descending insertion sort modelling `sort_by` at
`rag_engine.rs:212`: for every score value, the equal-score candidates keep
their original (store scan) order. -/
theorem filter_insertionSort_stable (v : Nat) :
    ∀ l : List (Nat × String),
      (List.insertionSort scoreDesc l).filter (fun x => x.1 == v) =
        l.filter (fun x => x.1 == v) := by
  intro l
  induction l with
  | nil => rfl
  | cons a t ih =>
    rw [List.insertionSort]
    by_cases ha : a.1 = v
    · rw [filter_orderedInsert_of_eq v a ha _ (List.sorted_insertionSort scoreDesc t), ih]
      simp [List.filter_cons, ha]
    · rw [filter_orderedInsert_of_ne v a ha _, ih]
      simp [List.filter_cons, ha]

/-- C8: the fallback pipeline is the composition the claim describes. The
candidate scan is bounded by `limit * 5`; the candidates (built by
`fallback_candidates` from the scan, scored by `fallback_score` and
discarded at score 0) are sorted by score descending — and the sort is
stable, so equal scores keep store scan order — and the first `limit`
survivors are returned. -/
theorem C8_fallback_pipeline (s : Store) (q : String) (limit : Nat) :
    fallback_search s q limit =
      ((List.insertionSort scoreDesc (fallback_candidates s q limit)).take limit).map
        Prod.snd ∧
    (scan_rows s (limit * 5)).length ≤ limit * 5 ∧
    List.Sorted scoreDesc (List.insertionSort scoreDesc (fallback_candidates s q limit)) ∧
    ∀ v : Nat,
      (List.insertionSort scoreDesc (fallback_candidates s q limit)).filter
          (fun x => x.1 == v) =
        (fallback_candidates s q limit).filter (fun x => x.1 == v) :=
  ⟨rfl, by unfold scan_rows; exact List.length_take_le _ _,
    List.sorted_insertionSort scoreDesc _, fun v => filter_insertionSort_stable v _⟩

/-- Skolemize a pointwise preimage property into a preimage list. -/
theorem exists_list_preimage {α β : Type} (f : β → α) (P : β → Prop) :
    ∀ l : List α, (∀ x ∈ l, ∃ b, P b ∧ x = f b) →
      ∃ rows : List β, l = rows.map f ∧ ∀ b ∈ rows, P b := by
  intro l
  induction l with
  | nil => exact fun _ => ⟨[], rfl, by simp⟩
  | cons x t ih =>
    intro h
    obtain ⟨b, hPb, hxb⟩ := h x (by simp)
    obtain ⟨rows, hmap, hP⟩ := ih (fun y hy => h y (List.mem_cons_of_mem _ hy))
    refine ⟨b :: rows, by simp [hxb, hmap], ?_⟩
    intro c hc
    rcases List.mem_cons.mp hc with hcb | hcr
    · exact hcb ▸ hPb
    · exact hP c hcr

/-- Every row of the fallback scan comes from a chunk row joined with its
parent document, as `(c.content, c.document_id, d.title)`. -/
theorem scan_rows_mem {s : Store} {n : Nat} {r : String × String × String}
    (hr : r ∈ scan_rows s n) :
    ∃ c ∈ s.chunks, ∃ d ∈ s.documents,
      c.document_id = d.id ∧ r = (c.content, c.document_id, d.title) := by
  unfold scan_rows at hr
  have hr2 := List.mem_of_mem_take hr
  rw [List.mem_filterMap] at hr2
  obtain ⟨c, hc, hcr⟩ := hr2
  cases hfd : findDoc s.documents c.document_id with
  | none => rw [hfd] at hcr; simp at hcr
  | some d =>
    rw [hfd] at hcr
    simp only [Option.map_some', Option.some.injEq] at hcr
    have hfd2 : s.documents.find? (fun x => x.id == c.document_id) = some d := hfd
    have hpd := List.find?_some hfd2
    have hide : d.id = c.document_id := by simpa using hpd
    exact ⟨c, hc, d, List.mem_of_find?_eq_some hfd2, hide.symm, hcr.symm⟩

/-- Every row of the indexed-path SELECT comes from a chunk row joined with
its parent document. -/
theorem indexed_rows_mem {s : Store} {expr : String} {limit : Nat} {r : QueryRow}
    (hr : r ∈ indexed_rows s expr limit) :
    ∃ c ∈ s.chunks, ∃ d ∈ s.documents,
      c.document_id = d.id ∧ r = ⟨c.content, c.document_id, d.title, d.metadata⟩ := by
  unfold indexed_rows at hr
  have hr2 := List.mem_of_mem_take hr
  rw [List.mem_filterMap] at hr2
  obtain ⟨cf, _hcf, hbind⟩ := hr2
  cases hfc : findChunk s.chunks cf.chunk_id with
  | none => rw [hfc] at hbind; simp at hbind
  | some c =>
    rw [hfc] at hbind
    simp only [Option.some_bind] at hbind
    cases hfd : findDoc s.documents c.document_id with
    | none => rw [hfd] at hbind; simp at hbind
    | some d =>
      rw [hfd] at hbind
      simp only [Option.map_some', Option.some.injEq] at hbind
      have hfd2 : s.documents.find? (fun x => x.id == c.document_id) = some d := hfd
      have hfc2 : s.chunks.find? (fun x => x.id == cf.chunk_id) = some c := hfc
      have hpd := List.find?_some hfd2
      have hide : d.id = c.document_id := by simpa using hpd
      exact ⟨c, List.mem_of_find?_eq_some hfc2, d, List.mem_of_find?_eq_some hfd2,
        hide.symm, hbind.symm⟩

/-- C5 counterexample: the claim is false — results do not carry the parent
document's metadata (nor the chunk id or a score). Two stores differing only
in a document's metadata produce identical query output, and that output is
a bare formatted string, so no result can carry the metadata. -/
theorem C5_counterexample_metadata_not_carried :
    query ⟨[⟨"d", "T", "hello there.", [("k", "v1")]⟩],
        [⟨"d_0", "d", "hello there.", 0, 12⟩], [⟨"d_0", "hello there."⟩]⟩ "hello" 5 =
      query ⟨[⟨"d", "T", "hello there.", [("k", "v2")]⟩],
        [⟨"d_0", "d", "hello there.", 0, 12⟩], [⟨"d_0", "hello there."⟩]⟩ "hello" 5 ∧
    query ⟨[⟨"d", "T", "hello there.", [("k", "v1")]⟩],
        [⟨"d_0", "d", "hello there.", 0, 12⟩], [⟨"d_0", "hello there."⟩]⟩ "hello" 5 =
      .ok ["[Document: T (d)] hello there."] ∧
    ([("k", "v1")] : List (String × String)) ≠ [("k", "v2")] :=
  ⟨rfl, rfl, by decide⟩

/-- C5 amended: every result returned by `query` (on either path) is the
formatted string `"[Document: {title} ({document_id})] {content}"` built from
a chunk row joined with its parent document, the output being the ordered
image of the producing path's ranked row list (order preserved); the
chunk id, the relevance score and the document metadata are not part of
the output. -/
theorem C5_amended_results_format (s : Store) (q : String) (limit : Nat) :
    ∃ rows : List (String × String × String),
      query s q limit = .ok (rows.map (fun r => formatResult r.1 r.2.1 r.2.2)) ∧
      ∀ r ∈ rows, ∃ c ∈ s.chunks, ∃ d ∈ s.documents,
        c.document_id = d.id ∧ r = (d.title, c.document_id, c.content) := by
  unfold query
  split
  · -- fallback path
    have hpt : ∀ x ∈ fallback_search s q limit,
        ∃ b : String × String × String,
          (∃ c ∈ s.chunks, ∃ d ∈ s.documents,
            c.document_id = d.id ∧ b = (d.title, c.document_id, c.content)) ∧
          x = formatResult b.1 b.2.1 b.2.2 := by
      intro x hx
      unfold fallback_search at hx
      rw [List.mem_map] at hx
      obtain ⟨pair, hpair, hxp⟩ := hx
      have hp2 : pair ∈ fallback_candidates s q limit :=
        (List.mem_insertionSort scoreDesc).mp (List.mem_of_mem_take hpair)
      unfold fallback_candidates at hp2
      rw [List.mem_filterMap] at hp2
      obtain ⟨row, hrow, hif⟩ := hp2
      obtain ⟨c, hc, d, hd, hcd, hrowe⟩ := scan_rows_mem hrow
      split at hif
      · refine ⟨(d.title, c.document_id, c.content), ⟨c, hc, d, hd, hcd, rfl⟩, ?_⟩
        rw [← hxp, ← Option.some.inj hif, hrowe]
      · exact absurd hif (by simp)
    obtain ⟨rows, hmap, hP⟩ := exists_list_preimage _ _ _ hpt
    exact ⟨rows, by rw [hmap], hP⟩
  · -- indexed path
    have hpt : ∀ x ∈ indexed_results s q limit,
        ∃ b : String × String × String,
          (∃ c ∈ s.chunks, ∃ d ∈ s.documents,
            c.document_id = d.id ∧ b = (d.title, c.document_id, c.content)) ∧
          x = formatResult b.1 b.2.1 b.2.2 := by
      intro x hx
      unfold indexed_results at hx
      rw [List.mem_map] at hx
      obtain ⟨qr, hqr, hxq⟩ := hx
      obtain ⟨c, hc, d, hd, hcd, hqre⟩ := indexed_rows_mem hqr
      refine ⟨(d.title, c.document_id, c.content), ⟨c, hc, d, hd, hcd, rfl⟩, ?_⟩
      rw [← hxq, hqre]
    obtain ⟨rows, hmap, hP⟩ := exists_list_preimage _ _ _ hpt
    exact ⟨rows, by rw [hmap], hP⟩

end RagEngine
